import Mathlib

/-!
Verification of the media provenance resolution engine of
scripts/enrich_media.py.  The Python code is shallowly embedded:
dictionaries become structures with optional fields plus an assoc list
of untouched extra keys, Python truthiness on optional string values is
modelled by a dedicated predicate, and every network call is drawn from
an explicit environment of functions returning Except, so a raised
requests exception becomes an error value that propagates exactly as
the exception does.
-/

set_option maxHeartbeats 1000000

namespace EnrichMedia

/-- Decidable equality of Except values, needed to evaluate concrete
runs of the engine. -/
instance {ε α : Type} [DecidableEq ε] [DecidableEq α] : DecidableEq (Except ε α) := by
  intro a b
  cases a <;> cases b
  case error.error e f =>
    exact if h : e = f then .isTrue (by rw [h]) else .isFalse (by simp [h])
  case error.ok e x => exact .isFalse (by simp)
  case ok.error x e => exact .isFalse (by simp)
  case ok.ok x y =>
    exact if h : x = y then .isTrue (by rw [h]) else .isFalse (by simp [h])

/-- Python truthiness of an optional string value: None and the empty
string are falsy, every other string is truthy. -/
def truthy : Option String → Bool
  | none => false
  | some s => decide (s ≠ "")

/-- Python `a or b` restricted to optional string values. -/
def orT (a b : Option String) : Option String := if truthy a then a else b

/-- Whitespace characters removed by Python str.strip(). -/
def isPySpace (c : Char) : Bool :=
  c = ' ' || c = '\t' || c = '\n' || c = '\r' || c = '\x0b' || c = '\x0c'

/-- Python str.strip(): drop leading and trailing whitespace. -/
def pyTrim (l : List Char) : List Char :=
  ((l.dropWhile isPySpace).reverse.dropWhile isPySpace).reverse

/-- String wrapper for pyTrim. -/
def pyTrimStr (s : String) : String := String.mk (pyTrim s.data)

/-- Fuelled scanner for re.sub applied to the pattern matching a left
angle bracket, one or more characters other than a right angle bracket,
and a right angle bracket: every leftmost non-overlapping match is
removed; the fuel is an upper bound on the list length, so the zero
case is never reached from stripTagsAux. -/
def stripTagsFuel : Nat → List Char → List Char
  | _, [] => []
  | 0, _ :: _ => []
  | fuel + 1, c :: rest =>
    if c = '<' then
      let run := rest.takeWhile (fun x => decide (x ≠ '>'))
      if 1 ≤ run.length ∧ run.length < rest.length then
        stripTagsFuel fuel (rest.drop (run.length + 1))
      else
        c :: stripTagsFuel fuel rest
    else
      c :: stripTagsFuel fuel rest

/-- Removal of every leftmost non-overlapping HTML tag match. -/
def stripTagsAux (l : List Char) : List Char := stripTagsFuel l.length l

/-- String wrapper for the HTML tag removal. -/
def stripTagsStr (s : String) : String := String.mk (stripTagsAux s.data)

/-- Python filename.replace(" ", "_") character map. -/
def spaceToUnderscore (c : Char) : Char := if c = ' ' then '_' else c

/-- Python title.replace("_", " ") character map. -/
def underscoreToSpace (c : Char) : Char := if c = '_' then ' ' else c

/-- Filename with every space replaced by an underscore. -/
def underscored (f : String) : String := String.mk (f.data.map spaceToUnderscore)

/-! ## Data model: POI records and the media image sub-record -/

/-- The poi.media.image dictionary. -/
@[ext] structure Img where
  thumb : Option String
  page : Option String
  license : Option String
  license_url : Option String
  credit : Option String
  source : Option String
  extra : List (String × String)
deriving DecidableEq, Repr

/-- The poi.media dictionary: the image key plus untouched siblings. -/
@[ext] structure MediaRec where
  image : Option Img
  extra : List (String × String)
deriving DecidableEq, Repr

/-- The poi.links dictionary. -/
@[ext] structure Links where
  wikidata : Option String
  wikipedia : Option String
  extra : List (String × String)
deriving DecidableEq, Repr

/-- One POI record of the catalogue document. -/
@[ext] structure Poi where
  id : Option String
  links : Option Links
  media : Option MediaRec
  extra : List (String × String)
deriving DecidableEq, Repr

/-- A whole catalogue document: the pois list plus untouched siblings. -/
@[ext] structure Doc where
  pois : List Poi
  extra : List (String × String)
deriving DecidableEq, Repr

/-- The empty image dictionary. -/
def emptyImg : Img := ⟨none, none, none, none, none, none, []⟩

/-- The empty media dictionary. -/
def emptyMedia : MediaRec := ⟨none, []⟩

/-- The empty links dictionary. -/
def emptyLinks : Links := ⟨none, none, []⟩

/-- Image dictionary of a POI, defaulting missing levels to empty
dictionaries exactly as (poi.get("media") or ...).get("image") does. -/
def imgOf (p : Poi) : Img := (p.media.getD emptyMedia).image.getD emptyImg

/-- Links dictionary of a POI, defaulting to the empty dictionary. -/
def linksOf (p : Poi) : Links := p.links.getD emptyLinks

/-- The transient resolution metadata: license, license url, credit. -/
structure Meta where
  license : Option String
  license_url : Option String
  credit : Option String
deriving DecidableEq, Repr

/-- The empty metadata dictionary. -/
def emptyMeta : Meta := ⟨none, none, none⟩

/-! ## External interfaces: raw API responses and the environment -/

/-- Raw fields used from one encyclopedia query API page object. -/
structure PageRaw where
  thumbnail : Option String
  qid : Option String
  title : Option String
deriving DecidableEq, Repr

/-- Raw fields used from one knowledge-base entity object: the list of
image-claim values, in API order; a non-string datavalue is none. -/
structure EntityRaw where
  p18 : List (Option String)
deriving DecidableEq, Repr

/-- Raw fields used from the image-info API response: the extended
metadata block collapsed to key-value string pairs, and the uploading
user. -/
structure IIRaw where
  ext : List (String × String)
  user : Option String
deriving DecidableEq, Repr

/-- Environment of network calls: each returns an error value when the
underlying HTTP request raises, and an optional payload where the API
may report the page or entity as missing. -/
structure Env where
  pageinfo : String → String → Except String (Option PageRaw)
  entity : String → Except String (Option EntityRaw)
  imageinfo : String → Except String (Option IIRaw)

/-! ## Reference Parser: wikipedia_lang_and_title -/

/-- Characters admitted in the language group of the URL pattern. -/
def langChar (c : Char) : Bool := ('a' ≤ c && c ≤ 'z') || c = '-'

/-- Literal character list of the https scheme. -/
def httpsL : List Char := "https://".data

/-- Literal character list of the http scheme. -/
def httpL : List Char := "http://".data

/-- Literal character list of the fixed domain-and-path segment of the
URL pattern. -/
def wikiDomain : List Char := ".wikipedia.org/wiki/".data

/-- Strip an expected literal from the front of a character list,
returning the remainder on success. -/
def listStrip : List Char → List Char → Option (List Char)
  | [], l => some l
  | _ :: _, [] => none
  | p :: ps, c :: cs => if c = p then listStrip ps cs else none

/-- Remainder of the URL after the scheme: the https scheme is tried
first, then the http scheme, matching the optional s of the pattern. -/
def afterScheme (cs : List Char) : Option (List Char) :=
  match listStrip httpsL cs with
  | some r => some r
  | none => listStrip httpL cs

/-- Title group of the URL pattern: one or more characters other than a
newline, anchored at the end of the string, where the anchor also
matches just before a single trailing newline. -/
def dollarTail (l : List Char) : Option (List Char) :=
  if l.contains '\n' then
    if !(l.dropLast.contains '\n') && decide (2 ≤ l.length) then some l.dropLast
    else none
  else if l.isEmpty then none else some l

/-- Core of the reference parser over character lists. -/
def wltCore (cs : List Char) : Option (String × String) :=
  match afterScheme cs with
  | none => none
  | some r =>
    let lang := r.takeWhile langChar
    if lang.isEmpty then none
    else
      match listStrip wikiDomain (r.dropWhile langChar) with
      | none => none
      | some rest =>
        match dollarTail rest with
        | none => none
        | some t =>
          some (String.mk lang,
                String.mk ((t.takeWhile (fun c => decide (c ≠ '#'))).map underscoreToSpace))

/-- Embedding of wikipedia_lang_and_title: match the URL against the
anchored pattern, then keep the part of the title before any fragment
and replace underscores by spaces. -/
def wikipedia_lang_and_title (url : String) : Option (String × String) :=
  wltCore url.data

/-! ## Page Metadata Client: wikipedia_pageinfo -/

/-- Result dictionary of wikipedia_pageinfo. -/
structure PageInfo where
  thumbnail : Option String
  qid : Option String
  page_url : Option String
deriving DecidableEq, Repr

/-- Canonical encyclopedia page URL built from the language and the
resolved title with spaces replaced by underscores. -/
def wpPageUrl (lang title : String) : String :=
  "https://" ++ lang ++ ".wikipedia.org/wiki/" ++ String.mk (title.data.map spaceToUnderscore)

/-- Embedding of wikipedia_pageinfo: a missing page yields the empty
dictionary, otherwise the thumbnail source, the wikibase item, and the
canonical page URL from the returned title or, when falsy, the query
title. -/
def wikipedia_pageinfo (env : Env) (lang title : String) : Except String PageInfo :=
  match env.pageinfo lang title with
  | .error e => .error e
  | .ok none => .ok ⟨none, none, none⟩
  | .ok (some pg) =>
    .ok ⟨pg.thumbnail, pg.qid,
         some (wpPageUrl lang (if truthy pg.title then pg.title.getD "" else title))⟩

/-! ## Entity Image Resolver: wikidata_p18_filename -/

/-- Embedding of wikidata_p18_filename: examine only the first image
claim; a string datavalue whose stripped form is non-empty yields that
stripped filename, anything else yields none. -/
def wikidata_p18_filename (ent : EntityRaw) : Option String :=
  match ent.p18.head? with
  | some (some v) =>
    let t := pyTrimStr v
    if t = "" then none else some t
  | _ => none

/-! ## Asset Metadata Client -/

/-- Embedding of commons_thumb_url. -/
def commons_thumb_url (filename : String) (width : Nat) : String :=
  "https://commons.wikimedia.org/wiki/Special:FilePath/" ++ underscored filename
    ++ "?width=" ++ toString width

/-- Embedding of commons_page_url. -/
def commons_page_url (filename : String) : String :=
  "https://commons.wikimedia.org/wiki/File:" ++ underscored filename

/-- Embedding of the local helper _v of commons_imageinfo: look up an
extended metadata key, remove HTML tags, strip whitespace, and turn an
empty result into an absent one. -/
def vExt (ext : List (String × String)) (k : String) : Option String :=
  match ext.lookup k with
  | none => none
  | some v =>
    let s := pyTrimStr (stripTagsStr v)
    if s = "" then none else some s

/-- Metadata dictionary built from a raw image-info response; a
response with no usable page yields the empty dictionary. -/
def metaOfRaw : Option IIRaw → Meta
  | none => emptyMeta
  | some ii =>
    ⟨orT (vExt ii.ext "LicenseShortName") (vExt ii.ext "License"),
     vExt ii.ext "LicenseUrl",
     orT (vExt ii.ext "Credit") (orT (vExt ii.ext "Artist") ii.user)⟩

/-- Embedding of commons_imageinfo as the network call followed by the
pure extraction. -/
def commons_imageinfo (env : Env) (filename : String) : Except String Meta :=
  match env.imageinfo filename with
  | .error e => .error e
  | .ok raw => .ok (metaOfRaw raw)

/-! ## Merge Engine: set_media -/

/-- Thumb write of set_media: unconditional on difference. -/
def stepThumb (t : String) (s : Img × Bool) : Img × Bool :=
  if s.1.thumb ≠ some t then ({ s.1 with thumb := some t }, true) else s

/-- Page write of set_media: guarded by truthiness and difference. -/
def stepPage (pg : Option String) (s : Img × Bool) : Img × Bool :=
  if truthy pg ∧ s.1.page ≠ pg then ({ s.1 with page := pg }, true) else s

/-- License write of set_media. -/
def stepLicense (m : Meta) (s : Img × Bool) : Img × Bool :=
  if truthy m.license ∧ s.1.license ≠ m.license then ({ s.1 with license := m.license }, true)
  else s

/-- License URL write of set_media. -/
def stepLicenseUrl (m : Meta) (s : Img × Bool) : Img × Bool :=
  if truthy m.license_url ∧ s.1.license_url ≠ m.license_url then
    ({ s.1 with license_url := m.license_url }, true)
  else s

/-- Credit write of set_media. -/
def stepCredit (m : Meta) (s : Img × Bool) : Img × Bool :=
  if truthy m.credit ∧ s.1.credit ≠ m.credit then ({ s.1 with credit := m.credit }, true)
  else s

/-- Source normalization of set_media: always forced to the fixed
provenance tag. -/
def stepSource (s : Img × Bool) : Img × Bool :=
  if s.1.source ≠ some "wikimedia" then ({ s.1 with source := some "wikimedia" }, true) else s

/-- Sequential field merge of set_media on the image dictionary: each
field is written only when the guard of the corresponding Python if
holds, and the changed flag is set by every write. -/
def mergeImg (img0 : Img) (thumb : String) (page : Option String) (meta : Meta) :
    Img × Bool :=
  stepSource (stepCredit meta (stepLicenseUrl meta (stepLicense meta
    (stepPage page (stepThumb thumb (img0, false))))))

/-- Embedding of set_media: merge into the image dictionary and write
the result back under media.image, leaving every sibling key alone. -/
def set_media (poi : Poi) (thumb : String) (page : Option String) (meta : Meta) :
    Poi × Bool :=
  let media := poi.media.getD emptyMedia
  let r := mergeImg (media.image.getD emptyImg) thumb page meta
  ({ poi with media := some { media with image := some r.1 } }, r.2)

/-! ## Orchestrator: enrich_poi and the per-file loop of main -/

/-- Wikipedia block of enrich_poi: when the link is truthy and parses,
query the page metadata and return the thumbnail, the discovered
entity id, and the page URL or the original link. -/
def wiki_lookup (env : Env) (wiki : Option String) :
    Except String (Option String × Option String × Option String) :=
  if truthy wiki then
    match wikipedia_lang_and_title (wiki.getD "") with
    | some (lang, title) =>
      match wikipedia_pageinfo env lang title with
      | .error e => .error e
      | .ok info => .ok (info.thumbnail, info.qid, orT info.page_url wiki)
    | none => .ok (none, none, none)
  else .ok (none, none, none)

/-- Entity block of enrich_poi: when a truthy candidate entity id
exists, fetch the entity, extract the image claim, and derive the
thumbnail URL, the page URL, and the asset metadata. -/
def entity_resolution (env : Env) (best_qid : Option String) (width : Nat) :
    Except String (Option (String × String × Meta)) :=
  if truthy best_qid then
    match env.entity (best_qid.getD "") with
    | .error e => .error e
    | .ok none => .ok none
    | .ok (some ent) =>
      match wikidata_p18_filename ent with
      | none => .ok none
      | some p18 =>
        match commons_imageinfo env p18 with
        | .error e => .error e
        | .ok meta => .ok (some (commons_thumb_url p18 width, commons_page_url p18, meta))
  else .ok none

/-- Embedding of enrich_poi: skip when a truthy thumb exists and
overwrite is off, otherwise run the Wikipedia block, prefer the entity
resolution, and fall back to the page thumbnail. -/
def enrich_poi (env : Env) (poi : Poi) (width : Nat) (overwrite : Bool) :
    Except String (Poi × Bool) :=
  let existing := (imgOf poi).thumb
  if truthy existing && !overwrite then .ok (poi, false)
  else
    let qid := (linksOf poi).wikidata
    let wiki := (linksOf poi).wikipedia
    match wiki_lookup env wiki with
    | .error e => .error e
    | .ok (wiki_thumb, wiki_qid, wiki_page) =>
      match entity_resolution env (orT qid wiki_qid) width with
      | .error e => .error e
      | .ok (some (thumb, page, meta)) => .ok (set_media poi thumb (some page) meta)
      | .ok none =>
        if truthy wiki_thumb then
          .ok (set_media poi (wiki_thumb.getD "") (orT wiki_page wiki) emptyMeta)
        else .ok (poi, false)

/-- A warning line printed by the loop of main for a failed POI. -/
structure Warning where
  pid : Option String
  msg : String
deriving DecidableEq, Repr

/-- Result of one POI inside the loop of main: the enriched record, or
the record untouched when the enrichment raised. -/
def stepPoi (env : Env) (width : Nat) (overwrite : Bool) (p : Poi) : Poi :=
  match enrich_poi env p width overwrite with
  | .ok (p', _) => p'
  | .error _ => p

/-- Loop of main over the pois of one file: each POI is enriched inside
a try block, an error keeps the record, emits a warning naming the POI,
and processing continues; the middle component counts the updated
records. -/
def processPois (env : Env) (width : Nat) (overwrite : Bool) :
    List Poi → List Poi × Nat × List Warning
  | [] => ([], 0, [])
  | p :: ps =>
    let rest := processPois env width overwrite ps
    match enrich_poi env p width overwrite with
    | .ok (p', c) => (p' :: rest.1, (if c then 1 else 0) + rest.2.1, rest.2.2)
    | .error e => (p :: rest.1, rest.2.1, ⟨p.id, e⟩ :: rest.2.2)

/-- One file pass of main: enrich every POI, write the list back into
the document, and report the change count and the warnings. -/
def runFile (env : Env) (width : Nat) (overwrite : Bool) (d : Doc) :
    Doc × Nat × List Warning :=
  let r := processPois env width overwrite d.pois
  ({ d with pois := r.1 }, r.2.1, r.2.2)

/-- Serialization guard of main: the document is written back exactly
when the change count is positive. -/
def fileSaved (r : Doc × Nat × List Warning) : Prop := 0 < r.2.1

/-- Modelled from the spec: percent-decoding of URL escapes, which the
specification requires of the Reference Parser but which is absent from
the source; a percent sign followed by two hexadecimal digits denotes
the character with that code, everything else is kept. -/
def hexDigit (c : Char) : Option Nat :=
  if '0' ≤ c ∧ c ≤ '9' then some (c.toNat - '0'.toNat)
  else if 'a' ≤ c ∧ c ≤ 'f' then some (c.toNat - 'a'.toNat + 10)
  else if 'A' ≤ c ∧ c ≤ 'F' then some (c.toNat - 'A'.toNat + 10)
  else none

/-- Modelled from the spec: fuelled percent-decoding scanner; the fuel
bounds the list length, so the zero case is never reached from
specPercentDecode. -/
def specPDFuel : Nat → List Char → List Char
  | _, [] => []
  | 0, l => l
  | n + 1, '%' :: a :: b :: rest =>
    match hexDigit a, hexDigit b with
    | some x, some y => Char.ofNat (16 * x + y) :: specPDFuel n rest
    | _, _ => '%' :: specPDFuel n (a :: b :: rest)
  | n + 1, c :: rest => c :: specPDFuel n rest

/-- Modelled from the spec: percent-decoding over character lists. -/
def specPercentDecode (l : List Char) : List Char := specPDFuel l.length l

/-- Modelled from the spec: percent-decoding of strings. -/
def specPercentDecodeStr (s : String) : String := String.mk (specPercentDecode s.data)

/-! ## Concrete fixtures used to evaluate the engine on closed inputs -/

/-- Environment in which every call succeeds with an empty payload. -/
def nullEnv : Env := ⟨fun _ _ => .ok none, fun _ => .ok none, fun _ => .ok none⟩

/-- POI whose thumb is already set, with links that would resolve. -/
def poiWithThumb : Poi :=
  ⟨some "p3", some ⟨some "Q9", some "https://en.wikipedia.org/wiki/X", []⟩,
   some ⟨some ⟨some "https://img.example/x.jpg", none, none, none, none, none, []⟩, []⟩, []⟩

/-- POI with no links dictionary at all. -/
def c7poi : Poi := ⟨some "p7", none, none, []⟩

/-- Environment where the page metadata call discovers an entity id and
the entity declares an image claim. -/
def c1env : Env :=
  ⟨fun _ _ => .ok (some ⟨some "https://up.wiki/page-thumb.jpg", some "Q1", some "Berlin"⟩),
   fun _ => .ok (some ⟨[some "Example.jpg"]⟩),
   fun _ => .ok none⟩

/-- POI holding only an encyclopedia reference. -/
def c1poi : Poi :=
  ⟨some "p1", some ⟨none, some "https://en.wikipedia.org/wiki/Berlin", []⟩, none, []⟩

/-- Expected record after enriching c1poi in c1env: the entity-derived
asset wins over the page thumbnail. -/
def c1out : Poi :=
  ⟨some "p1", some ⟨none, some "https://en.wikipedia.org/wiki/Berlin", []⟩,
   some ⟨some ⟨some "https://commons.wikimedia.org/wiki/Special:FilePath/Example.jpg?width=900",
               some "https://commons.wikimedia.org/wiki/File:Example.jpg",
               none, none, none, some "wikimedia", []⟩, []⟩, []⟩

/-- POI with a manually set thumb equal to the entity-derived thumbnail
URL and no license fields. -/
def c4poi : Poi :=
  ⟨some "p4", some ⟨some "Q1", none, []⟩,
   some ⟨some ⟨some "https://commons.wikimedia.org/wiki/Special:FilePath/Example.jpg?width=900",
               none, none, none, none, none, []⟩, []⟩, []⟩

/-- Environment whose entity path yields the same filename plus license
metadata. -/
def c4env : Env :=
  ⟨fun _ _ => .ok none,
   fun _ => .ok (some ⟨[some "Example.jpg"]⟩),
   fun _ => .ok (some ⟨[("LicenseShortName", "CC BY-SA 4.0"),
                       ("LicenseUrl", "https://creativecommons.org/licenses/by-sa/4.0")],
                      some "Alice"⟩)⟩

/-- Expected record after an overwrite run of c4poi in c4env: license
fields filled in, thumb untouched. -/
def c4out : Poi :=
  ⟨some "p4", some ⟨some "Q1", none, []⟩,
   some ⟨some ⟨some "https://commons.wikimedia.org/wiki/Special:FilePath/Example.jpg?width=900",
               some "https://commons.wikimedia.org/wiki/File:Example.jpg",
               some "CC BY-SA 4.0",
               some "https://creativecommons.org/licenses/by-sa/4.0",
               some "Alice", some "wikimedia", []⟩, []⟩, []⟩

/-- Environment whose image-info response has no credit or artist in the
extended metadata but an uploading user whose name carries HTML tags. -/
def c6env : Env :=
  ⟨fun _ _ => .ok none,
   fun _ => .ok (some ⟨[some "Photo.jpg"]⟩),
   fun _ => .ok (some ⟨[], some "<i>Bob</i>"⟩)⟩

/-- POI with only a knowledge-base entity id. -/
def c6poi : Poi := ⟨some "p6", some ⟨some "Q5", none, []⟩, none, []⟩

/-- Record produced by enriching c6poi in c6env: the credit field stores
the uploader name verbatim, HTML tags included. -/
def c6out : Poi :=
  ⟨some "p6", some ⟨some "Q5", none, []⟩,
   some ⟨some ⟨some "https://commons.wikimedia.org/wiki/Special:FilePath/Photo.jpg?width=900",
               some "https://commons.wikimedia.org/wiki/File:Photo.jpg",
               none, none, some "<i>Bob</i>", some "wikimedia", []⟩, []⟩, []⟩

/-- Image-info payload used to exercise the metadata extraction. -/
def c6ii : IIRaw := ⟨[("LicenseShortName", "<b>CC0</b>")], some "Bob"⟩

/-- Environment where the entity path yields no image claim but the
page metadata call yields a thumbnail. -/
def c10env : Env :=
  ⟨fun _ _ => .ok (some ⟨some "https://up.wiki/page-thumb.jpg", some "Q1", some "Berlin"⟩),
   fun _ => .ok none,
   fun _ => .ok none⟩

/-- POI with an encyclopedia reference and previously stored license
fields describing an earlier image. -/
def c10poi : Poi :=
  ⟨some "p10", some ⟨none, some "https://en.wikipedia.org/wiki/Berlin", []⟩,
   some ⟨some ⟨some "https://old.example/old.jpg", some "https://old.example/page",
               some "CC0", some "https://cc0.example", some "Carol",
               some "wikimedia", []⟩, []⟩, []⟩

/-- Environment where the page metadata call times out for one title
and succeeds for every other. -/
def c9env : Env :=
  ⟨fun _ title =>
      if title = "Bad" then .error "timeout"
      else .ok (some ⟨some "https://up.wiki/good-thumb.jpg", none, some "Good"⟩),
   fun _ => .ok none,
   fun _ => .ok none⟩

/-- POI whose page metadata call fails. -/
def c9bad : Poi :=
  ⟨some "pbad", some ⟨none, some "https://en.wikipedia.org/wiki/Bad", []⟩, none, []⟩

/-- POI whose page metadata call succeeds. -/
def c9good : Poi :=
  ⟨some "pgood", some ⟨none, some "https://en.wikipedia.org/wiki/Good", []⟩, none, []⟩

/-- Two-POI document containing one failing and one succeeding record. -/
def c9doc : Doc := ⟨[c9bad, c9good], []⟩

/-! ## Lemmas about the merge engine -/

theorem stepThumb_thumb (t : String) (s : Img × Bool) : (stepThumb t s).1.thumb = some t := by
  unfold stepThumb
  split <;> simp_all

theorem stepPage_page (pg : Option String) (s : Img × Bool) :
    (stepPage pg s).1.page = if truthy pg then pg else s.1.page := by
  unfold stepPage
  split_ifs <;> simp_all

theorem stepLicense_license (m : Meta) (s : Img × Bool) :
    (stepLicense m s).1.license = if truthy m.license then m.license else s.1.license := by
  unfold stepLicense
  split_ifs <;> simp_all

theorem stepLicenseUrl_license_url (m : Meta) (s : Img × Bool) :
    (stepLicenseUrl m s).1.license_url
      = if truthy m.license_url then m.license_url else s.1.license_url := by
  unfold stepLicenseUrl
  split_ifs <;> simp_all

theorem stepCredit_credit (m : Meta) (s : Img × Bool) :
    (stepCredit m s).1.credit = if truthy m.credit then m.credit else s.1.credit := by
  unfold stepCredit
  split_ifs <;> simp_all

theorem stepSource_source (s : Img × Bool) : (stepSource s).1.source = some "wikimedia" := by
  unfold stepSource
  split <;> simp_all

theorem stepPage_keep (pg : Option String) (s : Img × Bool) :
    (stepPage pg s).1.thumb = s.1.thumb ∧ (stepPage pg s).1.license = s.1.license ∧
      (stepPage pg s).1.license_url = s.1.license_url ∧
      (stepPage pg s).1.credit = s.1.credit ∧ (stepPage pg s).1.source = s.1.source ∧
      (stepPage pg s).1.extra = s.1.extra := by
  unfold stepPage
  split <;> simp_all

theorem stepThumb_keep (t : String) (s : Img × Bool) :
    (stepThumb t s).1.page = s.1.page ∧ (stepThumb t s).1.license = s.1.license ∧
      (stepThumb t s).1.license_url = s.1.license_url ∧
      (stepThumb t s).1.credit = s.1.credit ∧ (stepThumb t s).1.source = s.1.source ∧
      (stepThumb t s).1.extra = s.1.extra := by
  unfold stepThumb
  split <;> simp_all

theorem stepLicense_keep (m : Meta) (s : Img × Bool) :
    (stepLicense m s).1.thumb = s.1.thumb ∧ (stepLicense m s).1.page = s.1.page ∧
      (stepLicense m s).1.license_url = s.1.license_url ∧
      (stepLicense m s).1.credit = s.1.credit ∧ (stepLicense m s).1.source = s.1.source ∧
      (stepLicense m s).1.extra = s.1.extra := by
  unfold stepLicense
  split <;> simp_all

theorem stepLicenseUrl_keep (m : Meta) (s : Img × Bool) :
    (stepLicenseUrl m s).1.thumb = s.1.thumb ∧ (stepLicenseUrl m s).1.page = s.1.page ∧
      (stepLicenseUrl m s).1.license = s.1.license ∧
      (stepLicenseUrl m s).1.credit = s.1.credit ∧
      (stepLicenseUrl m s).1.source = s.1.source ∧
      (stepLicenseUrl m s).1.extra = s.1.extra := by
  unfold stepLicenseUrl
  split <;> simp_all

theorem stepCredit_keep (m : Meta) (s : Img × Bool) :
    (stepCredit m s).1.thumb = s.1.thumb ∧ (stepCredit m s).1.page = s.1.page ∧
      (stepCredit m s).1.license = s.1.license ∧
      (stepCredit m s).1.license_url = s.1.license_url ∧
      (stepCredit m s).1.source = s.1.source ∧
      (stepCredit m s).1.extra = s.1.extra := by
  unfold stepCredit
  split <;> simp_all

theorem stepSource_keep (s : Img × Bool) :
    (stepSource s).1.thumb = s.1.thumb ∧ (stepSource s).1.page = s.1.page ∧
      (stepSource s).1.license = s.1.license ∧
      (stepSource s).1.license_url = s.1.license_url ∧
      (stepSource s).1.credit = s.1.credit ∧ (stepSource s).1.extra = s.1.extra := by
  unfold stepSource
  split <;> simp_all

theorem mergeImg_thumb (i : Img) (t : String) (pg : Option String) (m : Meta) :
    (mergeImg i t pg m).1.thumb = some t := by
  unfold mergeImg
  rw [(stepSource_keep _).1, (stepCredit_keep _ _).1, (stepLicenseUrl_keep _ _).1,
      (stepLicense_keep _ _).1, (stepPage_keep _ _).1, stepThumb_thumb]

theorem mergeImg_page (i : Img) (t : String) (pg : Option String) (m : Meta) :
    (mergeImg i t pg m).1.page = if truthy pg then pg else i.page := by
  unfold mergeImg
  rw [(stepSource_keep _).2.1, (stepCredit_keep _ _).2.1, (stepLicenseUrl_keep _ _).2.1,
      (stepLicense_keep _ _).2.1, stepPage_page, (stepThumb_keep _ _).1]

theorem mergeImg_license (i : Img) (t : String) (pg : Option String) (m : Meta) :
    (mergeImg i t pg m).1.license = if truthy m.license then m.license else i.license := by
  unfold mergeImg
  rw [(stepSource_keep _).2.2.1, (stepCredit_keep _ _).2.2.1, (stepLicenseUrl_keep _ _).2.2.1,
      stepLicense_license, (stepPage_keep _ _).2.1, (stepThumb_keep _ _).2.1]

theorem mergeImg_license_url (i : Img) (t : String) (pg : Option String) (m : Meta) :
    (mergeImg i t pg m).1.license_url
      = if truthy m.license_url then m.license_url else i.license_url := by
  unfold mergeImg
  rw [(stepSource_keep _).2.2.2.1, (stepCredit_keep _ _).2.2.2.1, stepLicenseUrl_license_url,
      (stepLicense_keep _ _).2.2.1, (stepPage_keep _ _).2.2.1, (stepThumb_keep _ _).2.2.1]

theorem mergeImg_credit (i : Img) (t : String) (pg : Option String) (m : Meta) :
    (mergeImg i t pg m).1.credit = if truthy m.credit then m.credit else i.credit := by
  unfold mergeImg
  rw [(stepSource_keep _).2.2.2.2.1, stepCredit_credit, (stepLicenseUrl_keep _ _).2.2.2.1,
      (stepLicense_keep _ _).2.2.2.1, (stepPage_keep _ _).2.2.2.1, (stepThumb_keep _ _).2.2.2.1]

theorem mergeImg_source (i : Img) (t : String) (pg : Option String) (m : Meta) :
    (mergeImg i t pg m).1.source = some "wikimedia" := by
  unfold mergeImg
  rw [stepSource_source]

theorem mergeImg_extra (i : Img) (t : String) (pg : Option String) (m : Meta) :
    (mergeImg i t pg m).1.extra = i.extra := by
  unfold mergeImg
  rw [(stepSource_keep _).2.2.2.2.2, (stepCredit_keep _ _).2.2.2.2.2,
      (stepLicenseUrl_keep _ _).2.2.2.2.2, (stepLicense_keep _ _).2.2.2.2.2,
      (stepPage_keep _ _).2.2.2.2.2, (stepThumb_keep _ _).2.2.2.2.2]

theorem stepThumb_false {t : String} {s : Img × Bool} (h : (stepThumb t s).2 = false) :
    stepThumb t s = s ∧ s.2 = false := by
  unfold stepThumb at h ⊢
  split at h <;> simp_all

theorem stepPage_false {pg : Option String} {s : Img × Bool} (h : (stepPage pg s).2 = false) :
    stepPage pg s = s ∧ s.2 = false := by
  unfold stepPage at h ⊢
  split at h <;> simp_all

theorem stepLicense_false {m : Meta} {s : Img × Bool} (h : (stepLicense m s).2 = false) :
    stepLicense m s = s ∧ s.2 = false := by
  unfold stepLicense at h ⊢
  split at h <;> simp_all

theorem stepLicenseUrl_false {m : Meta} {s : Img × Bool}
    (h : (stepLicenseUrl m s).2 = false) : stepLicenseUrl m s = s ∧ s.2 = false := by
  unfold stepLicenseUrl at h ⊢
  split at h <;> simp_all

theorem stepCredit_false {m : Meta} {s : Img × Bool} (h : (stepCredit m s).2 = false) :
    stepCredit m s = s ∧ s.2 = false := by
  unfold stepCredit at h ⊢
  split at h <;> simp_all

theorem stepSource_false {s : Img × Bool} (h : (stepSource s).2 = false) :
    stepSource s = s ∧ s.2 = false := by
  unfold stepSource at h ⊢
  split at h <;> simp_all

theorem mergeImg_false (i : Img) (t : String) (pg : Option String) (m : Meta)
    (h : (mergeImg i t pg m).2 = false) : (mergeImg i t pg m).1 = i := by
  unfold mergeImg at h ⊢
  obtain ⟨e6, h5⟩ := stepSource_false h
  obtain ⟨e5, h4⟩ := stepCredit_false h5
  obtain ⟨e4, h3⟩ := stepLicenseUrl_false h4
  obtain ⟨e3, h2⟩ := stepLicense_false h3
  obtain ⟨e2, h1⟩ := stepPage_false h2
  obtain ⟨e1, h0⟩ := stepThumb_false h1
  rw [e6, e5, e4, e3, e2, e1]

theorem stepThumb_noop {t : String} {i : Img} {c : Bool} (h : i.thumb = some t) :
    stepThumb t (i, c) = (i, c) := by
  unfold stepThumb
  simp [h]

theorem stepPage_noop {pg : Option String} {i : Img} {c : Bool}
    (h : truthy pg = true → i.page = pg) : stepPage pg (i, c) = (i, c) := by
  unfold stepPage
  by_cases hp : truthy pg = true
  · simp [hp, h hp]
  · simp [hp]

theorem stepLicense_noop {m : Meta} {i : Img} {c : Bool}
    (h : truthy m.license = true → i.license = m.license) : stepLicense m (i, c) = (i, c) := by
  unfold stepLicense
  by_cases hp : truthy m.license = true
  · simp [hp, h hp]
  · simp [hp]

theorem stepLicenseUrl_noop {m : Meta} {i : Img} {c : Bool}
    (h : truthy m.license_url = true → i.license_url = m.license_url) :
    stepLicenseUrl m (i, c) = (i, c) := by
  unfold stepLicenseUrl
  by_cases hp : truthy m.license_url = true
  · simp [hp, h hp]
  · simp [hp]

theorem stepCredit_noop {m : Meta} {i : Img} {c : Bool}
    (h : truthy m.credit = true → i.credit = m.credit) : stepCredit m (i, c) = (i, c) := by
  unfold stepCredit
  by_cases hp : truthy m.credit = true
  · simp [hp, h hp]
  · simp [hp]

theorem stepSource_noop {i : Img} {c : Bool} (h : i.source = some "wikimedia") :
    stepSource (i, c) = (i, c) := by
  unfold stepSource
  simp [h]

theorem mergeImg_of_fst_eq (i : Img) (t : String) (pg : Option String) (m : Meta)
    (h : (mergeImg i t pg m).1 = i) : mergeImg i t pg m = (i, false) := by
  have hthumb : i.thumb = some t := by rw [← h]; exact (mergeImg_thumb i t pg m).symm ▸ rfl
  have hpage : truthy pg = true → i.page = pg := by
    intro hp
    have := mergeImg_page i t pg m
    rw [h, if_pos hp] at this
    exact this
  have hlic : truthy m.license = true → i.license = m.license := by
    intro hp
    have := mergeImg_license i t pg m
    rw [h, if_pos hp] at this
    exact this
  have hlu : truthy m.license_url = true → i.license_url = m.license_url := by
    intro hp
    have := mergeImg_license_url i t pg m
    rw [h, if_pos hp] at this
    exact this
  have hcr : truthy m.credit = true → i.credit = m.credit := by
    intro hp
    have := mergeImg_credit i t pg m
    rw [h, if_pos hp] at this
    exact this
  have hsrc : i.source = some "wikimedia" := by rw [← h]; exact (mergeImg_source i t pg m).symm ▸ rfl
  unfold mergeImg
  rw [stepThumb_noop hthumb, stepPage_noop hpage, stepLicense_noop hlic,
      stepLicenseUrl_noop hlu, stepCredit_noop hcr, stepSource_noop hsrc]

theorem mergeImg_snd_iff (i : Img) (t : String) (pg : Option String) (m : Meta) :
    (mergeImg i t pg m).2 = true ↔ (mergeImg i t pg m).1 ≠ i := by
  constructor
  · intro h2 heq
    have := mergeImg_of_fst_eq i t pg m heq
    rw [this] at h2
    exact absurd h2 (by simp)
  · intro hne
    cases hh : (mergeImg i t pg m).2 with
    | true => rfl
    | false => exact absurd (mergeImg_false i t pg m hh) hne

/-! ## Lemmas about set_media -/

theorem set_media_fst_media (poi : Poi) (t : String) (pg : Option String) (m : Meta) :
    (set_media poi t pg m).1.media
      = some { poi.media.getD emptyMedia with image := some (mergeImg (imgOf poi) t pg m).1 } :=
  rfl

theorem imgOf_set_media (poi : Poi) (t : String) (pg : Option String) (m : Meta) :
    imgOf (set_media poi t pg m).1 = (mergeImg (imgOf poi) t pg m).1 := rfl

theorem set_media_id (poi : Poi) (t : String) (pg : Option String) (m : Meta) :
    (set_media poi t pg m).1.id = poi.id := rfl

theorem set_media_links (poi : Poi) (t : String) (pg : Option String) (m : Meta) :
    (set_media poi t pg m).1.links = poi.links := rfl

theorem set_media_poi_extra (poi : Poi) (t : String) (pg : Option String) (m : Meta) :
    (set_media poi t pg m).1.extra = poi.extra := rfl

theorem set_media_media_extra (poi : Poi) (t : String) (pg : Option String) (m : Meta) :
    ((set_media poi t pg m).1.media.getD emptyMedia).extra
      = (poi.media.getD emptyMedia).extra := rfl

theorem set_media_snd (poi : Poi) (t : String) (pg : Option String) (m : Meta) :
    (set_media poi t pg m).2 = (mergeImg (imgOf poi) t pg m).2 := rfl

theorem set_media_fst_eq_iff (poi : Poi) (t : String) (pg : Option String) (m : Meta) :
    (set_media poi t pg m).1 = poi ↔ (mergeImg (imgOf poi) t pg m).1 = imgOf poi := by
  constructor
  · intro h
    have hm : (set_media poi t pg m).1.media = poi.media := congrArg Poi.media h
    rw [set_media_fst_media] at hm
    unfold imgOf
    conv_rhs => rw [← hm]
    simp
    rfl
  · intro h
    have hs : (imgOf poi).source = some "wikimedia" := by
      rw [← h]
      exact mergeImg_source (imgOf poi) t pg m
    cases hmed : poi.media with
    | none =>
      exfalso
      unfold imgOf at hs
      rw [hmed] at hs
      simp [emptyMedia, emptyImg] at hs
    | some med =>
      cases himg : med.image with
      | none =>
        exfalso
        unfold imgOf at hs
        rw [hmed] at hs
        simp [himg, emptyImg] at hs
      | some img0 =>
        have himgOf : imgOf poi = img0 := by
          unfold imgOf
          rw [hmed]
          simp [himg]
        rw [Poi.ext_iff]
        refine ⟨rfl, rfl, ?_, rfl⟩
        rw [set_media_fst_media, hmed]
        simp only [Option.getD_some]
        rw [h, himgOf, ← himg]

theorem set_media_snd_iff (poi : Poi) (t : String) (pg : Option String) (m : Meta) :
    (set_media poi t pg m).2 = true ↔ (set_media poi t pg m).1 ≠ poi := by
  rw [set_media_snd, mergeImg_snd_iff]
  exact not_iff_not.mpr (set_media_fst_eq_iff poi t pg m).symm

/-! ## Lemmas about enrich_poi -/

theorem commons_thumb_url_ne (f : String) (w : Nat) : commons_thumb_url f w ≠ "" := by
  intro hc
  have h : (commons_thumb_url f w).data.head? = some 'h' := rfl
  rw [hc] at h
  simp at h

theorem truthy_getD {o : Option String} (h : truthy o = true) : o.getD "" ≠ "" := by
  cases o with
  | none => simp [truthy] at h
  | some s =>
    simp [truthy] at h
    simpa using h

theorem entity_resolution_some {env : Env} {bq : Option String} {w : Nat}
    {t pgu : String} {m : Meta}
    (h : entity_resolution env bq w = .ok (some (t, pgu, m))) :
    ∃ p18, t = commons_thumb_url p18 w ∧ pgu = commons_page_url p18 := by
  unfold entity_resolution at h
  by_cases hbq : truthy bq = true
  · rw [if_pos hbq] at h
    cases he : env.entity (bq.getD "") with
    | error e => rw [he] at h; exact absurd h (by simp)
    | ok oent =>
      rw [he] at h
      cases oent with
      | none => exact absurd h (by simp)
      | some ent =>
        dsimp only at h
        cases hp : wikidata_p18_filename ent with
        | none => rw [hp] at h; exact absurd h (by simp)
        | some p18 =>
          rw [hp] at h
          dsimp only at h
          cases hii : commons_imageinfo env p18 with
          | error e => rw [hii] at h; exact absurd h (by simp)
          | ok meta =>
            rw [hii] at h
            dsimp only at h
            refine ⟨p18, ?_, ?_⟩ <;> injection h with h1 <;> injection h1 with h2 <;>
              simp_all
  · rw [if_neg hbq] at h
    exact absurd h (by simp)

theorem enrich_cases {env : Env} {poi : Poi} {w : Nat} {ow : Bool} {r : Poi × Bool}
    (h : enrich_poi env poi w ow = .ok r) :
    r = (poi, false) ∨ ∃ t pg m, t ≠ "" ∧ r = set_media poi t pg m := by
  unfold enrich_poi at h
  by_cases hskip : (truthy (imgOf poi).thumb && !ow) = true
  · rw [if_pos hskip] at h
    left
    injection h with h1
    exact h1.symm
  · rw [if_neg hskip] at h
    dsimp only at h
    cases hwl : wiki_lookup env (linksOf poi).wikipedia with
    | error e => rw [hwl] at h; exact absurd h (by simp)
    | ok wl =>
      obtain ⟨wt, wq, wp⟩ := wl
      rw [hwl] at h
      dsimp only at h
      cases her : entity_resolution env (orT (linksOf poi).wikidata wq) w with
      | error e => rw [her] at h; exact absurd h (by simp)
      | ok er =>
        rw [her] at h
        cases er with
        | some res =>
          obtain ⟨t, pgu, m⟩ := res
          right
          obtain ⟨p18, ht, -⟩ := entity_resolution_some her
          refine ⟨t, some pgu, m, ?_, ?_⟩
          · rw [ht]; exact commons_thumb_url_ne p18 w
          · injection h with h1; exact h1.symm
        | none =>
          by_cases htw : truthy wt = true
          · rw [if_pos htw] at h
            right
            refine ⟨wt.getD "", orT wp (linksOf poi).wikipedia, emptyMeta, truthy_getD htw, ?_⟩
            injection h with h1
            exact h1.symm
          · rw [if_neg htw] at h
            left
            injection h with h1
            exact h1.symm

theorem enrich_skip (env : Env) (poi : Poi) (w : Nat)
    (h : truthy (imgOf poi).thumb = true) :
    enrich_poi env poi w false = .ok (poi, false) := by
  unfold enrich_poi
  rw [if_pos (by rw [h]; rfl)]

theorem thumb_after_set_media (poi : Poi) (t : String) (pg : Option String) (m : Meta) :
    (imgOf (set_media poi t pg m).1).thumb = some t := by
  rw [imgOf_set_media]
  exact mergeImg_thumb (imgOf poi) t pg m

theorem enrich_idem (env : Env) (poi : Poi) (w : Nat) {p' : Poi} {c : Bool}
    (h : enrich_poi env poi w false = .ok (p', c)) :
    enrich_poi env p' w false = .ok (p', false) := by
  rcases enrich_cases h with heq | ⟨t, pg, m, ht, heq⟩
  · have h1 : p' = poi := congrArg Prod.fst heq
    have h2 : c = false := congrArg Prod.snd heq
    rw [h1]
    rw [h1, h2] at h
    exact h
  · have h1 : p' = (set_media poi t pg m).1 := congrArg Prod.fst heq
    apply enrich_skip
    rw [h1, thumb_after_set_media]
    simp [truthy, ht]

/-! ## Lemmas about the loop of main -/

theorem processPois_fst (env : Env) (w : Nat) (ow : Bool) (ps : List Poi) :
    (processPois env w ow ps).1 = ps.map (stepPoi env w ow) := by
  induction ps with
  | nil => rfl
  | cons p ps ih =>
    simp only [processPois, List.map_cons]
    cases h : enrich_poi env p w ow with
    | ok r =>
      obtain ⟨p', c⟩ := r
      simp only [stepPoi, h, ih]
    | error e =>
      simp only [stepPoi, h, ih]

theorem processPois_warning (env : Env) (w : Nat) (ow : Bool) (ps : List Poi)
    (p : Poi) (e : String) (hp : p ∈ ps) (he : enrich_poi env p w ow = .error e) :
    (⟨p.id, e⟩ : Warning) ∈ (processPois env w ow ps).2.2 := by
  induction ps with
  | nil => cases hp
  | cons q ps ih =>
    simp only [processPois]
    rcases List.mem_cons.mp hp with heq | hmem
    · subst heq
      rw [he]
      exact List.mem_cons_self _ _
    · cases h : enrich_poi env q w ow with
      | ok r =>
        obtain ⟨q', c⟩ := r
        exact ih hmem
      | error e2 =>
        exact List.mem_cons_of_mem _ (ih hmem)

theorem processPois_idem (env : Env) (w : Nat) (ps : List Poi) :
    processPois env w false (processPois env w false ps).1
      = ((processPois env w false ps).1, 0, (processPois env w false ps).2.2) := by
  induction ps with
  | nil => rfl
  | cons p ps ih =>
    simp only [processPois]
    cases h : enrich_poi env p w false with
    | ok r =>
      obtain ⟨p', c⟩ := r
      simp only [processPois, enrich_idem env p w h, ih]
      simp
    | error e =>
      simp only [processPois, h, ih]

/-! ## Further helper lemmas -/

theorem truthy_isSome {o : Option String} (h : truthy o = true) : o.isSome := by
  cases o with
  | none => simp [truthy] at h
  | some s => rfl

theorem truthy_some_getD {o : Option String} (h : truthy o = true) : some (o.getD "") = o := by
  cases o with
  | none => simp [truthy] at h
  | some s => rfl

theorem wpPageUrl_ne (lang title : String) : wpPageUrl lang title ≠ "" := by
  intro hc
  have h : (wpPageUrl lang title).data.head? = some 'h' := rfl
  rw [hc] at h
  simp at h

theorem pageinfo_url {env : Env} {lang title : String} {info : PageInfo}
    (hpi : wikipedia_pageinfo env lang title = .ok info)
    (ht : truthy info.thumbnail = true) : ∃ u, info.page_url = some u ∧ u ≠ "" := by
  unfold wikipedia_pageinfo at hpi
  cases h : env.pageinfo lang title with
  | error e => rw [h] at hpi; exact absurd hpi (by simp)
  | ok o =>
    rw [h] at hpi
    cases o with
    | none =>
      injection hpi with h1
      rw [← h1] at ht
      simp [truthy] at ht
    | some pg =>
      injection hpi with h1
      rw [← h1]
      exact ⟨_, rfl, wpPageUrl_ne _ _⟩

/-! ## Claim theorems -/

/-- Claim C3: for a POI whose media.image.thumb is truthy and with
overwrite off, a run returns the record unchanged and reports it as not
updated, for every environment, so no network observation can affect
the result. -/
theorem spec_C3 (poi : Poi) (w : Nat)
    (h : truthy (imgOf poi).thumb = true) :
    ∀ env : Env, enrich_poi env poi w false = .ok (poi, false) :=
  fun env => enrich_skip env poi w h

/-- Witness for claim C3 at a concrete POI and environment. -/
theorem spec_C3_witness :
    truthy (imgOf poiWithThumb).thumb = true ∧
      enrich_poi nullEnv poiWithThumb 900 false = .ok (poiWithThumb, false) :=
  ⟨by decide, spec_C3 poiWithThumb 900 (by decide) nullEnv⟩

/-- Claim C7: a POI with no truthy encyclopedia reference and no truthy
knowledge-base entity id in its links is left completely untouched and
reported as unchanged, in every environment and in both overwrite
modes. -/
theorem spec_C7 (env : Env) (poi : Poi) (w : Nat) (ow : Bool)
    (h1 : truthy (linksOf poi).wikipedia = false)
    (h2 : truthy (linksOf poi).wikidata = false) :
    enrich_poi env poi w ow = .ok (poi, false) := by
  unfold enrich_poi
  by_cases hskip : (truthy (imgOf poi).thumb && !ow) = true
  · rw [if_pos hskip]
  · rw [if_neg hskip]
    dsimp only
    have hwl : wiki_lookup env (linksOf poi).wikipedia = .ok (none, none, none) := by
      unfold wiki_lookup
      rw [if_neg (by rw [h1]; simp)]
    rw [hwl]
    dsimp only
    have hor : orT (linksOf poi).wikidata none = none := by
      unfold orT
      rw [if_neg (by rw [h2]; simp)]
    rw [hor]
    have hent : entity_resolution env none w = .ok none := by
      unfold entity_resolution
      rw [if_neg (by simp [truthy])]
    rw [hent]
    dsimp only
    rw [if_neg (by simp [truthy])]

/-- Witness for claim C7 at a POI with no links, under overwrite. -/
theorem spec_C7_witness :
    truthy (linksOf c7poi).wikipedia = false ∧ truthy (linksOf c7poi).wikidata = false ∧
      enrich_poi nullEnv c7poi 900 true = .ok (c7poi, false) :=
  ⟨by decide, by decide, spec_C7 nullEnv c7poi 900 true (by decide) (by decide)⟩

/-- Claim C2: with overwrite off, a second run over the document
produced by a first run returns the document unchanged, counts zero
updated records, reproduces the same warnings, and does not trigger
serialization. -/
theorem spec_C2 (env : Env) (w : Nat) (d : Doc) :
    runFile env w false (runFile env w false d).1
        = ((runFile env w false d).1, 0, (runFile env w false d).2.2)
      ∧ ¬ fileSaved (runFile env w false (runFile env w false d).1) := by
  have h := processPois_idem env w d.pois
  have h1 : runFile env w false (runFile env w false d).1
      = ((runFile env w false d).1, 0, (runFile env w false d).2.2) := by
    unfold runFile
    dsimp only
    rw [h]
  refine ⟨h1, ?_⟩
  rw [h1]
  unfold fileSaved
  simp

/-- Claim C8: an untrapped run only ever writes inside media.image: the
id, the links, every sibling key of the POI and of media, and every
extra key of the image dictionary keep their values, and no field of
the image dictionary that was present becomes absent. -/
theorem spec_C8 (env : Env) (poi : Poi) (w : Nat) (ow : Bool) (p' : Poi) (c : Bool)
    (h : enrich_poi env poi w ow = .ok (p', c)) :
    p'.id = poi.id ∧ p'.links = poi.links ∧ p'.extra = poi.extra ∧
      (p'.media.getD emptyMedia).extra = (poi.media.getD emptyMedia).extra ∧
      (imgOf p').extra = (imgOf poi).extra ∧
      ((imgOf poi).thumb.isSome → (imgOf p').thumb.isSome) ∧
      ((imgOf poi).page.isSome → (imgOf p').page.isSome) ∧
      ((imgOf poi).license.isSome → (imgOf p').license.isSome) ∧
      ((imgOf poi).license_url.isSome → (imgOf p').license_url.isSome) ∧
      ((imgOf poi).credit.isSome → (imgOf p').credit.isSome) ∧
      ((imgOf poi).source.isSome → (imgOf p').source.isSome) := by
  rcases enrich_cases h with heq | ⟨t, pg, m, ht, heq⟩
  · have h1 : p' = poi := congrArg Prod.fst heq
    subst h1
    simp
  · have h1 : p' = (set_media poi t pg m).1 := congrArg Prod.fst heq
    subst h1
    refine ⟨set_media_id poi t pg m, set_media_links poi t pg m,
            set_media_poi_extra poi t pg m, set_media_media_extra poi t pg m,
            ?_, ?_, ?_, ?_, ?_, ?_, ?_⟩
    · rw [imgOf_set_media, mergeImg_extra]
    · intro _
      rw [imgOf_set_media, mergeImg_thumb]
      rfl
    · intro hp
      rw [imgOf_set_media, mergeImg_page]
      by_cases htp : truthy pg = true
      · rw [if_pos htp]; exact truthy_isSome htp
      · rw [if_neg htp]; exact hp
    · intro hp
      rw [imgOf_set_media, mergeImg_license]
      by_cases htp : truthy m.license = true
      · rw [if_pos htp]; exact truthy_isSome htp
      · rw [if_neg htp]; exact hp
    · intro hp
      rw [imgOf_set_media, mergeImg_license_url]
      by_cases htp : truthy m.license_url = true
      · rw [if_pos htp]; exact truthy_isSome htp
      · rw [if_neg htp]; exact hp
    · intro hp
      rw [imgOf_set_media, mergeImg_credit]
      by_cases htp : truthy m.credit = true
      · rw [if_pos htp]; exact truthy_isSome htp
      · rw [if_neg htp]; exact hp
    · intro _
      rw [imgOf_set_media, mergeImg_source]
      rfl

/-- Witness for claim C8 on the concrete enrichment of c1poi. -/
theorem spec_C8_witness :
    c1out.id = c1poi.id ∧ c1out.links = c1poi.links ∧ c1out.extra = c1poi.extra ∧
      (c1out.media.getD emptyMedia).extra = (c1poi.media.getD emptyMedia).extra ∧
      (imgOf c1out).extra = (imgOf c1poi).extra ∧
      ((imgOf c1poi).thumb.isSome → (imgOf c1out).thumb.isSome) ∧
      ((imgOf c1poi).page.isSome → (imgOf c1out).page.isSome) ∧
      ((imgOf c1poi).license.isSome → (imgOf c1out).license.isSome) ∧
      ((imgOf c1poi).license_url.isSome → (imgOf c1out).license_url.isSome) ∧
      ((imgOf c1poi).credit.isSome → (imgOf c1out).credit.isSome) ∧
      ((imgOf c1poi).source.isSome → (imgOf c1out).source.isSome) :=
  spec_C8 c1env c1poi 900 false c1out true (by decide)

/-- Claim C4: the merge writes thumb, page, license, license url and
credit only when the incoming value differs, and only when the guard of
the corresponding write admits it; the source tag is always normalized;
the changed flag is true exactly when the record differs from its old
value; and the concrete overwrite scenario fills the license fields
while leaving an identical thumb untouched. -/
theorem spec_C4 (poi : Poi) (t : String) (pg : Option String) (m : Meta) :
    (imgOf (set_media poi t pg m).1).thumb = some t ∧
      (imgOf (set_media poi t pg m).1).page
        = (if truthy pg then pg else (imgOf poi).page) ∧
      (imgOf (set_media poi t pg m).1).license
        = (if truthy m.license then m.license else (imgOf poi).license) ∧
      (imgOf (set_media poi t pg m).1).license_url
        = (if truthy m.license_url then m.license_url else (imgOf poi).license_url) ∧
      (imgOf (set_media poi t pg m).1).credit
        = (if truthy m.credit then m.credit else (imgOf poi).credit) ∧
      (imgOf (set_media poi t pg m).1).source = some "wikimedia" ∧
      ((set_media poi t pg m).2 = true ↔ (set_media poi t pg m).1 ≠ poi) ∧
      enrich_poi c4env c4poi 900 true = .ok (c4out, true) := by
  refine ⟨?_, ?_, ?_, ?_, ?_, ?_, set_media_snd_iff poi t pg m, by decide⟩
  · rw [imgOf_set_media]; exact mergeImg_thumb _ t pg m
  · rw [imgOf_set_media]; exact mergeImg_page _ t pg m
  · rw [imgOf_set_media]; exact mergeImg_license _ t pg m
  · rw [imgOf_set_media]; exact mergeImg_license_url _ t pg m
  · rw [imgOf_set_media]; exact mergeImg_credit _ t pg m
  · rw [imgOf_set_media]; exact mergeImg_source _ t pg m

/-- Witness for claim C4 on a concrete merge. -/
theorem spec_C4_witness :
    (imgOf (set_media c7poi "x" none emptyMeta).1).thumb = some "x" :=
  (spec_C4 c7poi "x" none emptyMeta).1

/-- Claim C1: when the run is not skipped, the POI carries a truthy
encyclopedia reference that parses and whose page metadata call
succeeds, a truthy candidate entity id exists, the entity is fetched
with an image claim, and the asset metadata call succeeds, then the
final thumb is exactly the entity-derived Commons thumbnail URL, and
never a differing page thumbnail, although the Wikipedia call ran
first. -/
theorem spec_C1 (env : Env) (poi : Poi) (w : Nat) (ow : Bool) (lang title : String)
    (info : PageInfo) (ent : EntityRaw) (f : String) (rawii : Option IIRaw)
    (hskip : (truthy (imgOf poi).thumb && !ow) = false)
    (hwiki : truthy (linksOf poi).wikipedia = true)
    (hparse : wikipedia_lang_and_title ((linksOf poi).wikipedia.getD "") = some (lang, title))
    (hpi : wikipedia_pageinfo env lang title = .ok info)
    (hbq : truthy (orT (linksOf poi).wikidata info.qid) = true)
    (hent : env.entity ((orT (linksOf poi).wikidata info.qid).getD "") = .ok (some ent))
    (hp18 : wikidata_p18_filename ent = some f)
    (hii : env.imageinfo f = .ok rawii) :
    enrich_poi env poi w ow
        = .ok (set_media poi (commons_thumb_url f w) (some (commons_page_url f))
                 (metaOfRaw rawii))
      ∧ (imgOf (set_media poi (commons_thumb_url f w) (some (commons_page_url f))
               (metaOfRaw rawii)).1).thumb = some (commons_thumb_url f w)
      ∧ ∀ s, info.thumbnail = some s → s ≠ commons_thumb_url f w →
          (imgOf (set_media poi (commons_thumb_url f w) (some (commons_page_url f))
                 (metaOfRaw rawii)).1).thumb ≠ some s := by
  have hmain : enrich_poi env poi w ow
      = .ok (set_media poi (commons_thumb_url f w) (some (commons_page_url f))
               (metaOfRaw rawii)) := by
    unfold enrich_poi
    rw [if_neg (by rw [hskip]; simp)]
    dsimp only
    have hwl : wiki_lookup env (linksOf poi).wikipedia
        = .ok (info.thumbnail, info.qid, orT info.page_url (linksOf poi).wikipedia) := by
      unfold wiki_lookup
      rw [if_pos hwiki, hparse]
      dsimp only
      rw [hpi]
    rw [hwl]
    dsimp only
    have hent2 : entity_resolution env (orT (linksOf poi).wikidata info.qid) w
        = .ok (some (commons_thumb_url f w, commons_page_url f, metaOfRaw rawii)) := by
      unfold entity_resolution
      rw [if_pos hbq, hent]
      dsimp only
      rw [hp18]
      dsimp only
      unfold commons_imageinfo
      rw [hii]
    rw [hent2]
  refine ⟨hmain, thumb_after_set_media poi _ _ _, ?_⟩
  intro s hs hne hcontra
  rw [thumb_after_set_media] at hcontra
  injection hcontra with h1
  exact hne h1.symm

/-- Witness for claim C1: a concrete POI whose page thumbnail differs
from the entity-derived one, which wins. -/
theorem spec_C1_witness :
    enrich_poi c1env c1poi 900 false
        = .ok (set_media c1poi (commons_thumb_url "Example.jpg" 900)
                 (some (commons_page_url "Example.jpg")) (metaOfRaw none))
      ∧ (imgOf (set_media c1poi (commons_thumb_url "Example.jpg" 900)
               (some (commons_page_url "Example.jpg")) (metaOfRaw none)).1).thumb
          = some (commons_thumb_url "Example.jpg" 900) :=
  ⟨(spec_C1 c1env c1poi 900 false "en" "Berlin"
      ⟨some "https://up.wiki/page-thumb.jpg", some "Q1",
       some (wpPageUrl "en" "Berlin")⟩
      ⟨[some "Example.jpg"]⟩ "Example.jpg" none
      (by decide) (by decide) (by decide) (by decide) (by decide) (by decide)
      (by decide) (by decide)).1,
   (spec_C1 c1env c1poi 900 false "en" "Berlin"
      ⟨some "https://up.wiki/page-thumb.jpg", some "Q1",
       some (wpPageUrl "en" "Berlin")⟩
      ⟨[some "Example.jpg"]⟩ "Example.jpg" none
      (by decide) (by decide) (by decide) (by decide) (by decide) (by decide)
      (by decide) (by decide)).2.1⟩

/-- Claim C10: with overwrite on, an entity path that yields nothing
and a page thumbnail that exists, the run replaces thumb and page with
the page-derived values and leaves any stored license, license url and
credit exactly as they were. -/
theorem spec_C10 (env : Env) (poi : Poi) (w : Nat) (lang title : String)
    (info : PageInfo)
    (hwiki : truthy (linksOf poi).wikipedia = true)
    (hparse : wikipedia_lang_and_title ((linksOf poi).wikipedia.getD "") = some (lang, title))
    (hpi : wikipedia_pageinfo env lang title = .ok info)
    (hthumb : truthy info.thumbnail = true)
    (hent : entity_resolution env (orT (linksOf poi).wikidata info.qid) w = .ok none) :
    enrich_poi env poi w true
        = .ok (set_media poi (info.thumbnail.getD "")
                 (orT (orT info.page_url (linksOf poi).wikipedia) (linksOf poi).wikipedia)
                 emptyMeta)
      ∧ (imgOf (set_media poi (info.thumbnail.getD "")
               (orT (orT info.page_url (linksOf poi).wikipedia) (linksOf poi).wikipedia)
               emptyMeta).1).thumb = info.thumbnail
      ∧ (∃ u, info.page_url = some u ∧
          (imgOf (set_media poi (info.thumbnail.getD "")
                 (orT (orT info.page_url (linksOf poi).wikipedia) (linksOf poi).wikipedia)
                 emptyMeta).1).page = some u)
      ∧ (imgOf (set_media poi (info.thumbnail.getD "")
             (orT (orT info.page_url (linksOf poi).wikipedia) (linksOf poi).wikipedia)
             emptyMeta).1).license = (imgOf poi).license
      ∧ (imgOf (set_media poi (info.thumbnail.getD "")
             (orT (orT info.page_url (linksOf poi).wikipedia) (linksOf poi).wikipedia)
             emptyMeta).1).license_url = (imgOf poi).license_url
      ∧ (imgOf (set_media poi (info.thumbnail.getD "")
             (orT (orT info.page_url (linksOf poi).wikipedia) (linksOf poi).wikipedia)
             emptyMeta).1).credit = (imgOf poi).credit
      ∧ (imgOf (set_media poi (info.thumbnail.getD "")
             (orT (orT info.page_url (linksOf poi).wikipedia) (linksOf poi).wikipedia)
             emptyMeta).1).source = some "wikimedia" := by
  obtain ⟨u, hu, hune⟩ := pageinfo_url hpi hthumb
  have hmain : enrich_poi env poi w true
      = .ok (set_media poi (info.thumbnail.getD "")
               (orT (orT info.page_url (linksOf poi).wikipedia) (linksOf poi).wikipedia)
               emptyMeta) := by
    unfold enrich_poi
    rw [if_neg (by simp)]
    dsimp only
    have hwl : wiki_lookup env (linksOf poi).wikipedia
        = .ok (info.thumbnail, info.qid, orT info.page_url (linksOf poi).wikipedia) := by
      unfold wiki_lookup
      rw [if_pos hwiki, hparse]
      dsimp only
      rw [hpi]
    rw [hwl]
    dsimp only
    rw [hent]
    dsimp only
    rw [if_pos hthumb]
  have hpgarg : orT (orT info.page_url (linksOf poi).wikipedia) (linksOf poi).wikipedia
      = some u := by
    rw [hu]
    have h1 : orT (some u) (linksOf poi).wikipedia = some u := by
      unfold orT
      rw [if_pos (by simp [truthy, hune])]
    rw [h1, h1]
  refine ⟨hmain, ?_, ⟨u, hu, ?_⟩, ?_, ?_, ?_, ?_⟩
  · rw [thumb_after_set_media, truthy_some_getD hthumb]
  · rw [imgOf_set_media, mergeImg_page, hpgarg]
    rw [if_pos (by simp [truthy, hune])]
  · rw [imgOf_set_media, mergeImg_license]
    rw [if_neg (by simp [emptyMeta, truthy])]
  · rw [imgOf_set_media, mergeImg_license_url]
    rw [if_neg (by simp [emptyMeta, truthy])]
  · rw [imgOf_set_media, mergeImg_credit]
    rw [if_neg (by simp [emptyMeta, truthy])]
  · rw [imgOf_set_media, mergeImg_source]

/-- Witness for claim C10: the old license fields of c10poi survive the
replacement of its thumb by the page thumbnail. -/
theorem spec_C10_witness :
    enrich_poi c10env c10poi 900 true
        = .ok (set_media c10poi "https://up.wiki/page-thumb.jpg"
                 (some (wpPageUrl "en" "Berlin")) emptyMeta)
      ∧ (imgOf (set_media c10poi "https://up.wiki/page-thumb.jpg"
               (some (wpPageUrl "en" "Berlin")) emptyMeta).1).license
          = (imgOf c10poi).license := by
  have h := spec_C10 c10env c10poi 900 "en" "Berlin"
    ⟨some "https://up.wiki/page-thumb.jpg", some "Q1", some (wpPageUrl "en" "Berlin")⟩
    (by decide) (by decide) (by decide) (by decide) (by decide)
  refine ⟨?_, ?_⟩
  · have h1 := h.1
    rw [h1]
    rfl
  · have h4 := h.2.2.2.1
    rw [show (set_media c10poi "https://up.wiki/page-thumb.jpg"
          (some (wpPageUrl "en" "Berlin")) emptyMeta)
        = (set_media c10poi
            ((⟨some "https://up.wiki/page-thumb.jpg", some "Q1",
               some (wpPageUrl "en" "Berlin")⟩ : PageInfo).thumbnail.getD "")
            (orT (orT (⟨some "https://up.wiki/page-thumb.jpg", some "Q1",
               some (wpPageUrl "en" "Berlin")⟩ : PageInfo).page_url
                 (linksOf c10poi).wikipedia) (linksOf c10poi).wikipedia)
            emptyMeta) from by decide]
    exact h4

/-- Claim C9: a POI whose enrichment raises is caught at the POI
boundary: it stays unchanged in the output list, a warning naming it is
recorded, and every other POI of the batch is still processed into the
persisted document, whose length is preserved. -/
theorem spec_C9 (env : Env) (w : Nat) (ow : Bool) (d : Doc) (i : Nat) (p : Poi) (e : String)
    (hp : d.pois[i]? = some p)
    (he : enrich_poi env p w ow = .error e) :
    ((runFile env w ow d).1.pois)[i]? = some p ∧
      (∀ (j : Nat) (q : Poi), d.pois[j]? = some q →
        ((runFile env w ow d).1.pois)[j]? = some (stepPoi env w ow q)) ∧
      (⟨p.id, e⟩ : Warning) ∈ (runFile env w ow d).2.2 ∧
      (runFile env w ow d).1.pois.length = d.pois.length := by
  have hfst : (runFile env w ow d).1.pois = d.pois.map (stepPoi env w ow) := by
    unfold runFile
    exact processPois_fst env w ow d.pois
  have hws : (runFile env w ow d).2.2 = (processPois env w ow d.pois).2.2 := rfl
  refine ⟨?_, ?_, ?_, ?_⟩
  · rw [hfst, List.getElem?_map, hp]
    simp [stepPoi, he]
  · intro j q hq
    rw [hfst, List.getElem?_map, hq]
    rfl
  · rw [hws]
    have hmem : p ∈ d.pois := by
      have := List.getElem?_eq_some.mp hp
      obtain ⟨hlt, hget⟩ := this
      rw [← hget]
      exact List.getElem_mem hlt
    exact processPois_warning env w ow d.pois p e hmem he
  · rw [hfst]
    simp

/-- Witness for claim C9 on the two-POI document with one timeout. -/
theorem spec_C9_witness :
    ((runFile c9env 900 false c9doc).1.pois)[0]? = some c9bad ∧
      (∀ (j : Nat) (q : Poi), c9doc.pois[j]? = some q →
        ((runFile c9env 900 false c9doc).1.pois)[j]? = some (stepPoi c9env 900 false q)) ∧
      (⟨c9bad.id, "timeout"⟩ : Warning) ∈ (runFile c9env 900 false c9doc).2.2 ∧
      (runFile c9env 900 false c9doc).1.pois.length = c9doc.pois.length :=
  spec_C9 c9env 900 false c9doc 0 c9bad "timeout" (by decide) (by decide)

/-! ## Claim C6: asset URL derivation and metadata stripping -/

theorem vExt_some {ext : List (String × String)} {k s : String}
    (h : vExt ext k = some s) :
    ∃ raw, ext.lookup k = some raw ∧ s = pyTrimStr (stripTagsStr raw) ∧ s ≠ "" := by
  unfold vExt at h
  cases hl : ext.lookup k with
  | none => rw [hl] at h; exact absurd h (by simp)
  | some v =>
    rw [hl] at h
    dsimp only at h
    by_cases he : pyTrimStr (stripTagsStr v) = ""
    · rw [if_pos he] at h; exact absurd h (by simp)
    · rw [if_neg he] at h
      injection h with h1
      exact ⟨v, rfl, h1.symm, by rw [← h1]; exact he⟩

theorem orT_eq_some {a b : Option String} {s : String} (h : orT a b = some s) :
    a = some s ∨ b = some s := by
  unfold orT at h
  split at h
  · exact .inl h
  · exact .inr h

/-- Counterexample for claim C6: the credit fallback stores the
uploading user verbatim, so a user name carrying HTML tags reaches
storage unstripped, although stripping would change it. -/
theorem spec_C6_cex :
    enrich_poi c6env c6poi 900 false = .ok (c6out, true) ∧
      (imgOf c6out).credit = some "<i>Bob</i>" ∧
      pyTrimStr (stripTagsStr "<i>Bob</i>") = "Bob" ∧
      (some "<i>Bob</i>" : Option String) ≠ some "Bob" :=
  ⟨by decide, by decide, by decide, by decide⟩

/-- Claim C6 as amended: the thumbnail and page URLs are the underscored
file-repository URLs; every metadata value drawn from the extended
metadata block is stored tag-stripped, trimmed and non-empty, with
empty results absent; but the credit fallback to the uploading user is
stored verbatim. -/
theorem spec_C6 (f : String) (w : Nat) (ii : IIRaw) :
    commons_thumb_url f w
        = "https://commons.wikimedia.org/wiki/Special:FilePath/" ++ underscored f
            ++ "?width=" ++ toString w ∧
      commons_page_url f = "https://commons.wikimedia.org/wiki/File:" ++ underscored f ∧
      (' ' ∉ (underscored f).data) ∧
      (∀ s, (metaOfRaw (some ii)).license = some s →
        ∃ raw, (ii.ext.lookup "LicenseShortName" = some raw
                  ∨ ii.ext.lookup "License" = some raw)
          ∧ s = pyTrimStr (stripTagsStr raw) ∧ s ≠ "") ∧
      (∀ s, (metaOfRaw (some ii)).license_url = some s →
        ∃ raw, ii.ext.lookup "LicenseUrl" = some raw
          ∧ s = pyTrimStr (stripTagsStr raw) ∧ s ≠ "") ∧
      (∀ s, (metaOfRaw (some ii)).credit = some s →
        (∃ raw, (ii.ext.lookup "Credit" = some raw ∨ ii.ext.lookup "Artist" = some raw)
          ∧ s = pyTrimStr (stripTagsStr raw) ∧ s ≠ "") ∨ ii.user = some s) ∧
      metaOfRaw none = emptyMeta := by
  refine ⟨rfl, rfl, ?_, ?_, ?_, ?_, rfl⟩
  · intro hmem
    unfold underscored at hmem
    simp only [List.mem_map] at hmem
    obtain ⟨a, -, ha⟩ := hmem
    unfold spaceToUnderscore at ha
    by_cases hsp : a = ' '
    · rw [if_pos hsp] at ha; exact absurd ha (by decide)
    · rw [if_neg hsp] at ha; exact hsp ha
  · intro s hs
    unfold metaOfRaw at hs
    rcases orT_eq_some hs with h | h
    · obtain ⟨raw, hl, hv, hn⟩ := vExt_some h
      exact ⟨raw, .inl hl, hv, hn⟩
    · obtain ⟨raw, hl, hv, hn⟩ := vExt_some h
      exact ⟨raw, .inr hl, hv, hn⟩
  · intro s hs
    unfold metaOfRaw at hs
    exact vExt_some hs
  · intro s hs
    unfold metaOfRaw at hs
    rcases orT_eq_some hs with h | h
    · obtain ⟨raw, hl, hv, hn⟩ := vExt_some h
      exact .inl ⟨raw, .inl hl, hv, hn⟩
    · rcases orT_eq_some h with h2 | h2
      · obtain ⟨raw, hl, hv, hn⟩ := vExt_some h2
        exact .inl ⟨raw, .inr hl, hv, hn⟩
      · exact .inr h2

/-- Witness for the amended claim C6 on a concrete tag-carrying license
value. -/
theorem spec_C6_witness :
    ∃ raw, (c6ii.ext.lookup "LicenseShortName" = some raw
              ∨ c6ii.ext.lookup "License" = some raw)
      ∧ "CC0" = pyTrimStr (stripTagsStr raw) ∧ "CC0" ≠ "" :=
  (spec_C6 "f" 900 c6ii).2.2.2.1 "CC0" (by decide)

/-! ## Claim C5: the reference parser -/

theorem listStrip_self (p r : List Char) : listStrip p (p ++ r) = some r := by
  induction p with
  | nil => rfl
  | cons c cs ih => simp [listStrip, ih]

theorem listStrip_eq_some {p : List Char} : ∀ {l r : List Char},
    listStrip p l = some r → l = p ++ r := by
  induction p with
  | nil =>
    intro l r h
    have h1 : some l = some r := h
    injection h1
  | cons c cs ih =>
    intro l r h
    cases l with
    | nil => simp [listStrip] at h
    | cons x xs =>
      simp only [listStrip] at h
      by_cases hx : x = c
      · rw [if_pos hx] at h
        rw [hx, List.cons_append, ← ih h]
      · rw [if_neg hx] at h
        exact absurd h (by simp)

theorem takeWhile_all_append (p : Char → Bool) (L : List Char) (c : Char) (R : List Char)
    (hL : ∀ x ∈ L, p x = true) (hc : p c = false) :
    (L ++ c :: R).takeWhile p = L ∧ (L ++ c :: R).dropWhile p = c :: R := by
  induction L with
  | nil => simp [List.takeWhile_cons, List.dropWhile_cons, hc]
  | cons a L ih =>
    have ha : p a = true := hL a (List.mem_cons_self a L)
    have ih2 := ih (fun x hx => hL x (List.mem_cons_of_mem a hx))
    simp [List.takeWhile_cons, List.dropWhile_cons, ha, ih2.1, ih2.2]

theorem mem_takeWhile {p : Char → Bool} {l : List Char} {x : Char}
    (h : x ∈ l.takeWhile p) : p x = true := by
  induction l with
  | nil => simp [List.takeWhile] at h
  | cons a l ih =>
    rw [List.takeWhile_cons] at h
    by_cases ha : p a = true
    · rw [if_pos ha] at h
      rcases List.mem_cons.mp h with he | hm
      · rw [he]; exact ha
      · exact ih hm
    · rw [if_neg ha] at h
      cases h

theorem listStrip_https_http (tail : List Char) : listStrip httpsL (httpL ++ tail) = none := rfl

theorem afterScheme_https (tail : List Char) : afterScheme (httpsL ++ tail) = some tail := by
  unfold afterScheme
  rw [listStrip_self]

theorem afterScheme_http (tail : List Char) : afterScheme (httpL ++ tail) = some tail := by
  unfold afterScheme
  rw [listStrip_https_http]
  exact listStrip_self httpL tail

theorem wlt_pos (scheme lang rest t0 : List Char)
    (hs : scheme = httpsL ∨ scheme = httpL) (hlang : lang ≠ [])
    (hall : ∀ c ∈ lang, langChar c = true) (hdt : dollarTail rest = some t0) :
    wltCore (scheme ++ (lang ++ (wikiDomain ++ rest)))
      = some (String.mk lang,
              String.mk ((t0.takeWhile (fun c => decide (c ≠ '#'))).map underscoreToSpace)) := by
  have hA : afterScheme (scheme ++ (lang ++ (wikiDomain ++ rest)))
      = some (lang ++ (wikiDomain ++ rest)) := by
    rcases hs with h | h <;> rw [h]
    · exact afterScheme_https _
    · exact afterScheme_http _
  unfold wltCore
  rw [hA]
  dsimp only
  have hsplit : lang ++ (wikiDomain ++ rest)
      = lang ++ '.' :: ("wikipedia.org/wiki/".data ++ rest) := rfl
  obtain ⟨htw, hdw⟩ := takeWhile_all_append langChar lang '.'
    ("wikipedia.org/wiki/".data ++ rest) hall (by decide)
  rw [hsplit, htw, hdw]
  rw [if_neg (by simp [hlang])]
  rw [show ('.' :: ("wikipedia.org/wiki/".data ++ rest)) = wikiDomain ++ rest from rfl]
  rw [listStrip_self]
  dsimp only
  rw [hdt]

theorem wlt_inv (url : String) (l t : String)
    (h : wikipedia_lang_and_title url = some (l, t)) :
    ∃ scheme lang rest t0 : List Char,
      (scheme = httpsL ∨ scheme = httpL) ∧
      url.data = scheme ++ (lang ++ (wikiDomain ++ rest)) ∧
      lang ≠ [] ∧ (∀ c ∈ lang, langChar c = true) ∧
      dollarTail rest = some t0 ∧
      l = String.mk lang ∧
      t = String.mk ((t0.takeWhile (fun c => decide (c ≠ '#'))).map underscoreToSpace) := by
  unfold wikipedia_lang_and_title wltCore at h
  cases hA : afterScheme url.data with
  | none => rw [hA] at h; exact absurd h (by simp)
  | some r =>
    rw [hA] at h
    dsimp only at h
    by_cases hle : (r.takeWhile langChar).isEmpty = true
    · rw [if_pos hle] at h
      exact absurd h (by simp)
    · rw [if_neg hle] at h
      cases hD : listStrip wikiDomain (r.dropWhile langChar) with
      | none => rw [hD] at h; exact absurd h (by simp)
      | some rest =>
        rw [hD] at h
        dsimp only at h
        cases hT : dollarTail rest with
        | none => rw [hT] at h; exact absurd h (by simp)
        | some t0 =>
          rw [hT] at h
          dsimp only at h
          injection h with h1
          have hl : l = String.mk (r.takeWhile langChar) := (congrArg Prod.fst h1).symm
          have ht : t = String.mk ((t0.takeWhile (fun c => decide (c ≠ '#'))).map
              underscoreToSpace) := (congrArg Prod.snd h1).symm
          have hsch : ∃ scheme, (scheme = httpsL ∨ scheme = httpL) ∧
              url.data = scheme ++ r := by
            unfold afterScheme at hA
            cases hS : listStrip httpsL url.data with
            | some r2 =>
              rw [hS] at hA
              injection hA with h2
              exact ⟨httpsL, .inl rfl, by rw [← h2]; exact listStrip_eq_some hS⟩
            | none =>
              rw [hS] at hA
              exact ⟨httpL, .inr rfl, listStrip_eq_some hA⟩
          obtain ⟨scheme, hsor, hurl⟩ := hsch
          refine ⟨scheme, r.takeWhile langChar, rest, t0, hsor, ?_, ?_,
                  fun c hc => mem_takeWhile hc, hT, hl, ht⟩
          · rw [hurl]
            have hr : r = r.takeWhile langChar ++ (wikiDomain ++ rest) := by
              conv_lhs => rw [← List.takeWhile_append_dropWhile (p := langChar) (l := r)]
              rw [listStrip_eq_some hD]
            rw [← hr]
          · intro hc
            rw [hc] at hle
            exact hle (by rfl)

/-- Counterexample for claim C5: the parser keeps percent escapes
verbatim, although the claim requires the title to be percent-decoded,
which would turn the escape into a space. -/
theorem spec_C5_cex :
    wikipedia_lang_and_title "https://en.wikipedia.org/wiki/A%20B" = some ("en", "A%20B") ∧
      specPercentDecodeStr "A%20B" = "A B" ∧ ("A%20B" : String) ≠ "A B" :=
  ⟨by decide, by decide, by decide⟩

/-- Claim C5 as amended: on every URL of the anchored pattern the
parser returns the language group and the title with any fragment
stripped and underscores replaced by spaces, with percent escapes kept
verbatim rather than decoded; and it returns a result only for URLs of
that pattern, never raising. -/
theorem spec_C5 :
    (∀ scheme lang rest t0 : List Char,
      (scheme = httpsL ∨ scheme = httpL) → lang ≠ [] →
      (∀ c ∈ lang, langChar c = true) → dollarTail rest = some t0 →
      wikipedia_lang_and_title (String.mk (scheme ++ (lang ++ (wikiDomain ++ rest))))
        = some (String.mk lang,
                String.mk ((t0.takeWhile (fun c => decide (c ≠ '#'))).map underscoreToSpace)))
    ∧ (∀ url l t : String, wikipedia_lang_and_title url = some (l, t) →
        ∃ scheme lang rest t0 : List Char,
          (scheme = httpsL ∨ scheme = httpL) ∧
          url.data = scheme ++ (lang ++ (wikiDomain ++ rest)) ∧
          lang ≠ [] ∧ (∀ c ∈ lang, langChar c = true) ∧
          dollarTail rest = some t0 ∧
          l = String.mk lang ∧
          t = String.mk ((t0.takeWhile (fun c => decide (c ≠ '#'))).map underscoreToSpace)) :=
  ⟨fun scheme lang rest t0 hs hl ha hd => wlt_pos scheme lang rest t0 hs hl ha hd,
   wlt_inv⟩

/-- Witness for the amended claim C5 on a concrete URL with an
underscore and a fragment. -/
theorem spec_C5_witness :
    wikipedia_lang_and_title
        (String.mk (httpsL ++ ("en".data ++ (wikiDomain ++ "Foo_Bar#x".data))))
      = some (String.mk "en".data,
              String.mk (("Foo_Bar#x".data.takeWhile (fun c => decide (c ≠ '#'))).map
                underscoreToSpace)) :=
  spec_C5.1 httpsL "en".data "Foo_Bar#x".data "Foo_Bar#x".data (Or.inl rfl)
    (by decide) (by decide) (by decide)

end EnrichMedia
